import Mathlib

/-!
Verification development for the `twod` 2D grid library (`include/grid.h`,
`include/bounds.h`).  The C++ sources are shallowly embedded: C++ `int` is
modelled as `Int` (all indices relevant to the properties below stay well
inside 32-bit range, so overflow does not matter), heap buffers are modelled
as `List`s addressed by the same linear index the code computes, fallible
reads return `Option`, and each mutating member function becomes an explicit
state-passing function.
-/

namespace Twod

/-- Modelled from the spec: the repository references `twod/coordinates.h`,
which is not part of the available sources.  Per spec section 3,
`Coordinates {x, y}` is an integer pair used both as `Indices` (a point) and
`Extents` (a size), with componentwise add/sub, componentwise `abs`, and
comparisons `all_ge` / `all_lt` / `all_le` that are componentwise
AND-reductions; `area()` is the cell count `x * y` of an extents value. -/
structure Idx where
  x : Int
  y : Int
  deriving DecidableEq

instance : Add Idx := ⟨fun a b => ⟨a.x + b.x, a.y + b.y⟩⟩

instance : Sub Idx := ⟨fun a b => ⟨a.x - b.x, a.y - b.y⟩⟩

/-- Modelled from the spec: componentwise absolute value of a coordinate pair. -/
def Idx.abs (a : Idx) : Idx := ⟨|a.x|, |a.y|⟩

/-- Modelled from the spec: componentwise AND-reduction of `≤`. -/
def Idx.all_le (a b : Idx) : Bool := decide (a.x ≤ b.x) && decide (a.y ≤ b.y)

/-- Modelled from the spec: `extents.area()` is the cell count `x * y`. -/
def Idx.area (a : Idx) : Int := a.x * a.y

/-- Embeds `BoundsBase` state (`bounds.h`): an origin plus an extents pair. -/
structure BoundsM where
  origin : Idx
  extents : Idx
  deriving DecidableEq

/-- Embeds `BoundsBase::overlaps` (`bounds.h` lines 94-99):
`(this->origin() - other.origin()).abs().all_le(this->extents() + other.extents())`. -/
def BoundsM.overlaps (a b : BoundsM) : Bool :=
  ((a.origin - b.origin).abs).all_le (a.extents + b.extents)

/-- Modelled from the spec: the per-axis axis-aligned overlap test that spec
section 9 states as the intended semantics, `|dx| < ex_a+ex_b ∧ |dy| < ey_a+ey_b`.
This definition follows the spec's words and exists only to be compared with
`BoundsM.overlaps`, which is embedded from the source. -/
def BoundsM.axisOverlap (a b : BoundsM) : Bool :=
  decide (|a.origin.x - b.origin.x| < a.extents.x + b.extents.x) &&
  decide (|a.origin.y - b.origin.y| < a.extents.y + b.extents.y)

/-- Embeds the dense-storage grid state (`Grid` / `RawStorageBase` in
`grid.h`): runtime extents plus a heap buffer of `extents.area()` cells,
modelled as a list addressed by the code's linear index. -/
structure DGrid (C : Type) where
  extents : Idx
  data : List C
  deriving DecidableEq

/-- Embeds `RawStorageBase::toLinearIndex` (`grid.h` lines 1186-1189):
`(extents().x * pt.y) + pt.x`. -/
def toLinearIndex (extents pt : Idx) : Int := extents.x * pt.y + pt.x

/-- Embeds the dense-grid constructor `Grid(extents, cell_args...)`
(`grid.h` lines 1257-1263): allocates `extents.area()` cells and constructs
every one of them from the given fill value. -/
def mkGrid {C : Type} (extents : Idx) (v : C) : DGrid C :=
  ⟨extents, List.replicate extents.area.toNat v⟩

/-- Embeds const `RawStorageBase::access_impl`: `data_[toLinearIndex(pt)]`.
An out-of-range access is undefined behaviour in the C++ and is modelled
as `none`. -/
def DGrid.read {C : Type} (g : DGrid C) (pt : Idx) : Option C :=
  g.data[(toLinearIndex g.extents pt).toNat]?

/-- Embeds a store through mutable `RawStorageBase::access_impl`:
`data_[toLinearIndex(pt)] = v`. -/
def DGrid.write {C : Type} (g : DGrid C) (pt : Idx) (v : C) : DGrid C :=
  { g with data := g.data.set (toLinearIndex g.extents pt).toNat v }

/-- Embeds `ViewIterator::operator[]` / `View::access_impl` (`grid.h` lines
691-704 and 964-972): a view holds an origin relative to a parent and
resolves every access as `parent[origin + pt]`.  The parent is abstracted as
its access function, exactly as the view only holds a parent pointer on which
it calls `operator[]`. -/
def viewAccess {C : Type} (parent : Idx → Option C) (origin : Idx)
    (pt : Idx) : Option C :=
  parent (origin + pt)

/-- Embeds a store through a view's mutable access path: the view's mutable
`operator[]` returns a reference to the parent cell at `origin + pt`, so an
assignment through it is a parent write at `origin + pt`. -/
def viewWrite {C : Type} (g : DGrid C) (origin pt : Idx) (v : C) : DGrid C :=
  g.write (origin + pt) v

/-- Embeds the loop body of `GridBase::operator=` (`grid.h` lines 175-184):
`this_itr` starts at the left operand's begin (position `i`); the loop runs
an iteration per right-operand cell, assigning `*this_itr = *other_itr` and
advancing both, and stops exactly when the right operand's iterator reaches
the right operand's `end()`.  Returns the final left-operand storage together
with the number of loop iterations (cell pairs updated). -/
def assignIter {C : Type} (a : List C) (i : Nat) : List C → List C × Nat
  | [] => (a, 0)
  | bv :: rest =>
    let r := assignIter (a.set i bv) (i + 1) rest
    (r.1, r.2 + 1)

/-- Embeds `GridBase::operator=`: synchronized pairwise iteration starting at
both operands' begin. -/
def gridAssignL {C : Type} (a b : List C) : List C × Nat := assignIter a 0 b

/-- Embeds the loop of `GridBase::operator+=` / `operator-=` (`grid.h` lines
194-222), generalized over the cell-wise compound operation: each iteration
reads the current left cell, combines it with the right cell, stores the
result, and advances both iterators; the loop stops exactly at the right
operand's `end()`.  Reading past the left operand's storage is undefined
behaviour in the C++ and is modelled as leaving the left operand unchanged
for that iteration (the iteration still happens and is counted). -/
def compoundIter {C : Type} (op : C → C → C) (a : List C) (i : Nat) :
    List C → List C × Nat
  | [] => (a, 0)
  | bv :: rest =>
    let a' := match a[i]? with
      | some av => a.set i (op av bv)
      | none => a
    let r := compoundIter op a' (i + 1) rest
    (r.1, r.2 + 1)

/-- Embeds `GridBase::operator+=`-style compound assignment from both
operands' begin. -/
def gridCompound {C : Type} (op : C → C → C) (a b : List C) : List C × Nat :=
  compoundIter op a 0 b

/-- Embeds the loop of `GridBase::operator!=` (`grid.h` lines 270-282):
`this_itr` starts at the left operand's begin (position `i`); one iteration
runs per right-operand cell, returning `true` on the first mismatching pair
`*this_itr != *other_itr`, and the loop ends (returning `false`) exactly when
the right operand's iterator reaches the right operand's `end()`. -/
def neIter {C : Type} [DecidableEq C] (a : List C) (i : Nat) :
    List C → Bool
  | [] => false
  | bv :: rest => if a[i]? = some bv then neIter a (i + 1) rest else true

/-- Embeds `GridBase::operator!=` from both operands' begin. -/
def gridNe {C : Type} [DecidableEq C] (a b : List C) : Bool := neIter a 0 b

/-- Embeds `GridBase::operator==` (`grid.h` lines 294-298):
`not this->operator!=(other)`. -/
def gridEq {C : Type} [DecidableEq C] (a b : List C) : Bool := !gridNe a b

/-- Embeds `MappedGrid` (`grid.h` lines 1308-1336): logical extents plus an
externally owned buffer reached through the wrapped pointer; the `data` field
models the pointed-to cells, so an unchanged pointer and unchanged cell
values appear as an unchanged `data` field. -/
structure MappedGridM (C : Type) where
  extents : Idx
  data : List C
  deriving DecidableEq

/-- Embeds the one-argument `MappedGrid::resize` (`grid.h` lines 1324-1327):
`this->extents_ = extents;` and nothing else. -/
def MappedGridM.resize {C : Type} (g : MappedGridM C) (e : Idx) :
    MappedGridM C :=
  { g with extents := e }

/-- Embeds `Tile` (`grid.h` lines 1378-1383): an optional heap-allocated
fixed-size sub-grid, its cells modelled as a list in the tile grid's linear
order, plus the tile-aligned origin (default `Indices::Zero()`). -/
structure TileM (C : Type) where
  data : Option (List C)
  origin : Idx
  deriving DecidableEq

/-- Embeds the `FixedTiledGrid` state (`grid.h` lines 1386-1499): the shared
default cell value and the `tiles_` member, a
`FixedGrid<TileType, TileRows, TileCols>` stored here as a list in that
grid's linear order (`TileRows * tp.y + tp.x`). -/
structure FixedTiledGridM (C : Type) where
  defaultValue : C
  tiles : List (TileM C)
  deriving DecidableEq

/-- Embeds the tile-coordinate computation of both `access_impl` overloads:
`Indices{pt.x / TileHeight, pt.y / TileWidth}`. -/
def tileOf (TH TW : Int) (pt : Idx) : Idx := ⟨pt.x / TH, pt.y / TW⟩

/-- A default-constructed `Tile`: null data pointer, zero origin. -/
def emptyTile {C : Type} : TileM C := ⟨none, ⟨0, 0⟩⟩

/-- Embeds the `FixedTiledGrid` constructor (`grid.h` lines 1403-1405)
together with the default-initialized `tiles_` member:
`TileCount = (Height/TileHeight) * (Width/TileWidth)` empty tiles. -/
def mkTiledGrid {C : Type} (H W TH TW : Int) (d : C) : FixedTiledGridM C :=
  ⟨d, List.replicate ((H / TH) * (W / TW)).toNat emptyTile⟩

/-- Embeds const `FixedTiledGrid::access_impl` (`grid.h` lines 1450-1460):
look the tile up by `tiles_[tile_pt]`; if its data pointer is null return the
shared default value, otherwise return the materialized cell at
`pt - tile.origin`.  The const entry point mutates nothing, so it is a pure
function of the state: it allocates nothing and leaves the tile set
unchanged by construction. -/
def FixedTiledGridM.read {C : Type} (H W TH TW : Int)
    (g : FixedTiledGridM C) (pt : Idx) : Option C :=
  match g.tiles[(toLinearIndex ⟨H / TH, W / TW⟩ (tileOf TH TW pt)).toNat]? with
  | none => none
  | some tile =>
    match tile.data with
    | none => some g.defaultValue
    | some td => td[(toLinearIndex ⟨TH, TW⟩ (pt - tile.origin)).toNat]?

/-- Embeds the materialization branch of mutable
`FixedTiledGrid::access_impl` (`grid.h` lines 1467-1471): when the tile's
data pointer is null, set the tile origin to
`{tile_pt.x * TileHeight, tile_pt.y * TileWidth}` and allocate a
`TileHeight × TileWidth` sub-grid with every cell constructed from the
grid's default value; a materialized tile is left as it is. -/
def materializeTile {C : Type} (TH TW : Int) (d : C) (tp : Idx)
    (tile : TileM C) : TileM C :=
  match tile.data with
  | none => ⟨some (List.replicate (TH * TW).toNat d), ⟨tp.x * TH, tp.y * TW⟩⟩
  | some _ => tile

/-- Embeds a mutable `FixedTiledGrid::access_impl` call whose returned
reference is not written through: the tile is materialized if needed and the
state updated, nothing else. -/
def FixedTiledGridM.touch {C : Type} (H W TH TW : Int)
    (g : FixedTiledGridM C) (pt : Idx) : FixedTiledGridM C :=
  let tp := tileOf TH TW pt
  let i := (toLinearIndex ⟨H / TH, W / TW⟩ tp).toNat
  match g.tiles[i]? with
  | none => g
  | some tile =>
    { g with tiles := g.tiles.set i (materializeTile TH TW g.defaultValue tp tile) }

/-- Embeds a store through mutable `FixedTiledGrid::access_impl`
(`grid.h` lines 1462-1474): materialize the tile if its data pointer is
null, then assign through the returned reference
`tile.data->operator[](pt - tile.origin)`. -/
def FixedTiledGridM.write {C : Type} (H W TH TW : Int)
    (g : FixedTiledGridM C) (pt : Idx) (v : C) : FixedTiledGridM C :=
  let tp := tileOf TH TW pt
  let i := (toLinearIndex ⟨H / TH, W / TW⟩ tp).toNat
  match g.tiles[i]? with
  | none => g
  | some tile =>
    let t := materializeTile TH TW g.defaultValue tp tile
    match t.data with
    | none => g
    | some td =>
      let t2 : TileM C :=
        ⟨some (td.set (toLinearIndex ⟨TH, TW⟩ (pt - t.origin)).toNat v),
         t.origin⟩
      { g with tiles := g.tiles.set i t2 }

/-- Embeds `FixedTiledGrid::active` (`grid.h` lines 1419-1430): count the
tiles whose data pointer is non-null. -/
def FixedTiledGridM.active {C : Type} (g : FixedTiledGridM C) : Nat :=
  g.tiles.countP (fun t => t.data.isSome)

/-- Embeds `FixedTiledGrid::mask` (`grid.h` lines 1407-1417): a boolean grid
with one flag per tile, true iff the tile's data pointer is non-null, built
by pairwise iteration over `tiles_` in the same linear order. -/
def FixedTiledGridM.maskList {C : Type} (g : FixedTiledGridM C) : List Bool :=
  g.tiles.map (fun t => t.data.isSome)

/-- Reading the mask grid at a tile-index: the mask grid is a
`FixedGrid<bool, TileRows, TileCols>`, addressed by the linear index
`TileRows * tp.y + tp.x`. -/
def FixedTiledGridM.maskAt {C : Type} (TR TC : Int) (g : FixedTiledGridM C)
    (tp : Idx) : Option Bool :=
  (g.maskList)[(toLinearIndex ⟨TR, TC⟩ tp).toNat]?

/-- The concrete scenario grid of spec section 8: grid extents `{20,20}`,
tile extents `{5,5}`, default value `5`, then `grid[{5,5}] = 6` and
`grid[{18,19}] = 9`. -/
def c4grid : FixedTiledGridM Int :=
  FixedTiledGridM.write 20 20 5 5
    (FixedTiledGridM.write 20 20 5 5 (mkTiledGrid 20 20 5 5 5) ⟨5, 5⟩ 6)
    ⟨18, 19⟩ 9

/-- All sixteen tile-indices of a `4 × 4` tile grid. -/
def c4TileIndices : List Idx :=
  [⟨0, 0⟩, ⟨1, 0⟩, ⟨2, 0⟩, ⟨3, 0⟩,
   ⟨0, 1⟩, ⟨1, 1⟩, ⟨2, 1⟩, ⟨3, 1⟩,
   ⟨0, 2⟩, ⟨1, 2⟩, ⟨2, 2⟩, ⟨3, 2⟩,
   ⟨0, 3⟩, ⟨1, 3⟩, ⟨2, 3⟩, ⟨3, 3⟩]

theorem Idx.add_def (a b : Idx) : a + b = ⟨a.x + b.x, a.y + b.y⟩ := rfl

theorem Idx.sub_def (a b : Idx) : a - b = ⟨a.x - b.x, a.y - b.y⟩ := rfl

theorem Idx.add_assoc (a b c : Idx) : a + b + c = a + (b + c) := by
  simp [Idx.add_def, Int.add_assoc]

/-- C6: `overlaps` returns true iff componentwise
`|a.origin - b.origin| ≤ a.extents + b.extents`, and this is not the per-axis
axis-aligned overlap test: at `a = {origin {0,0}, extents {1,1}}`,
`b = {origin {2,0}, extents {1,1}}` the code's test is true while the
axis-aligned test is false. -/
theorem C6_overlaps_combined_magnitude :
    (∀ a b : BoundsM, a.overlaps b = true ↔
      (|a.origin.x - b.origin.x| ≤ a.extents.x + b.extents.x ∧
       |a.origin.y - b.origin.y| ≤ a.extents.y + b.extents.y)) ∧
    BoundsM.overlaps ⟨⟨0, 0⟩, ⟨1, 1⟩⟩ ⟨⟨2, 0⟩, ⟨1, 1⟩⟩ = true ∧
    BoundsM.axisOverlap ⟨⟨0, 0⟩, ⟨1, 1⟩⟩ ⟨⟨2, 0⟩, ⟨1, 1⟩⟩ = false := by
  refine ⟨fun a b => ?_, by decide, by decide⟩
  simp [BoundsM.overlaps, Idx.all_le, Idx.abs, Idx.sub_def, Idx.add_def]

theorem toLinearIndex_nonneg (E p : Idx) (hx0 : 0 ≤ p.x) (hy0 : 0 ≤ p.y)
    (hex : 0 ≤ E.x) : 0 ≤ toLinearIndex E p := by
  have : 0 ≤ E.x * p.y := mul_nonneg hex hy0
  simp only [toLinearIndex]
  omega

theorem toLinearIndex_lt_area (E p : Idx) (hx0 : 0 ≤ p.x) (hx : p.x < E.x)
    (_hy0 : 0 ≤ p.y) (hy : p.y < E.y) : toLinearIndex E p < E.area := by
  have h1 : p.y + 1 ≤ E.y := hy
  have h2 : E.x * (p.y + 1) ≤ E.x * E.y :=
    mul_le_mul_of_nonneg_left h1 (by omega)
  simp only [toLinearIndex, Idx.area]
  nlinarith

theorem toLinearIndex_inj (E p q : Idx)
    (hpx0 : 0 ≤ p.x) (hpx : p.x < E.x) (hpy0 : 0 ≤ p.y) (hpy : p.y < E.y)
    (hqx0 : 0 ≤ q.x) (hqx : q.x < E.x) (hqy0 : 0 ≤ q.y) (hqy : q.y < E.y)
    (hne : p ≠ q) : toLinearIndex E p ≠ toLinearIndex E q := by
  intro heq
  simp only [toLinearIndex] at heq
  have hy : p.y = q.y := by
    rcases lt_trichotomy p.y q.y with h | h | h
    · exfalso
      have : E.x * (p.y + 1) ≤ E.x * q.y :=
        mul_le_mul_of_nonneg_left (by omega) (by omega)
      nlinarith
    · exact h
    · exfalso
      have : E.x * (q.y + 1) ≤ E.x * p.y :=
        mul_le_mul_of_nonneg_left (by omega) (by omega)
      nlinarith
  have hx : p.x = q.x := by
    rw [hy] at heq
    omega
  exact hne (by cases p; cases q; simp_all)

theorem toLinearIndex_toNat_inj (E p q : Idx)
    (hpx0 : 0 ≤ p.x) (hpx : p.x < E.x) (hpy0 : 0 ≤ p.y) (hpy : p.y < E.y)
    (hqx0 : 0 ≤ q.x) (hqx : q.x < E.x) (hqy0 : 0 ≤ q.y) (hqy : q.y < E.y)
    (hne : p ≠ q) :
    (toLinearIndex E p).toNat ≠ (toLinearIndex E q).toNat := by
  have h1 := toLinearIndex_nonneg E p hpx0 hpy0 (by omega)
  have h2 := toLinearIndex_nonneg E q hqx0 hqy0 (by omega)
  have h3 := toLinearIndex_inj E p q hpx0 hpx hpy0 hpy hqx0 hqx hqy0 hqy hne
  omega

theorem toLinearIndex_toNat_lt_area (E p : Idx) (hx0 : 0 ≤ p.x)
    (hx : p.x < E.x) (hy0 : 0 ≤ p.y) (hy : p.y < E.y) :
    (toLinearIndex E p).toNat < E.area.toNat := by
  have h1 := toLinearIndex_nonneg E p hx0 hy0 (by omega)
  have h2 := toLinearIndex_lt_area E p hx0 hx hy0 hy
  omega

/-- C3: for extents `E` and any in-range point `p`, writing `v` at `p` into a
freshly constructed dense grid and reading `p` back yields `v`; moreover any
distinct in-range point `q` maps to a distinct linear index
`E.x * y + x`. -/
theorem C3_dense_write_read_round_trip {C : Type} (E p q : Idx) (v v0 : C)
    (hpx0 : 0 ≤ p.x) (hpx : p.x < E.x) (hpy0 : 0 ≤ p.y) (hpy : p.y < E.y)
    (hqx0 : 0 ≤ q.x) (hqx : q.x < E.x) (hqy0 : 0 ≤ q.y) (hqy : q.y < E.y)
    (hne : p ≠ q) :
    ((mkGrid E v0).write p v).read p = some v ∧
    toLinearIndex E p ≠ toLinearIndex E q := by
  refine ⟨?_, toLinearIndex_inj E p q hpx0 hpx hpy0 hpy hqx0 hqx hqy0 hqy hne⟩
  have hlt : (toLinearIndex E p).toNat < E.area.toNat :=
    toLinearIndex_toNat_lt_area E p hpx0 hpx hpy0 hpy
  simp [DGrid.read, DGrid.write, mkGrid, List.getElem?_set_self,
    List.length_replicate, hlt]

/-- C3 witness: concrete instantiation at `E = {3,2}`, `p = {2,1}`,
`q = {0,0}`, `v = 9`. -/
theorem C3_dense_write_read_round_trip_witness :
    ((mkGrid ⟨3, 2⟩ (0 : Int)).write ⟨2, 1⟩ 9).read ⟨2, 1⟩ = some 9 ∧
    toLinearIndex ⟨3, 2⟩ ⟨2, 1⟩ ≠ toLinearIndex ⟨3, 2⟩ ⟨0, 0⟩ :=
  C3_dense_write_read_round_trip ⟨3, 2⟩ ⟨2, 1⟩ ⟨0, 0⟩ 9 0
    (by decide) (by decide) (by decide) (by decide)
    (by decide) (by decide) (by decide) (by decide) (by decide)

/-- C2: a view access at `q` is exactly the parent access at `O + q`; a write
through the view at `q` is observed by reading the grid at `O + q` and a
grid write at `O + q` is observed through the view at `q`; and a view of a
view resolves by repeated origin addition down to the root grid access. -/
theorem C2_view_coordinate_transparency {C : Type} (g : DGrid C)
    (O1 O2 q : Idx) (v : C)
    (hx0 : 0 ≤ (O1 + q).x) (hx : (O1 + q).x < g.extents.x)
    (hy0 : 0 ≤ (O1 + q).y) (hy : (O1 + q).y < g.extents.y)
    (hlen : g.data.length = g.extents.area.toNat) :
    viewAccess g.read O1 q = g.read (O1 + q) ∧
    (viewWrite g O1 q v).read (O1 + q) = some v ∧
    viewAccess (g.write (O1 + q) v).read O1 q = some v ∧
    viewAccess (viewAccess g.read O1) O2 q = g.read (O1 + O2 + q) := by
  have hlt : (toLinearIndex g.extents (O1 + q)).toNat < g.data.length := by
    rw [hlen]
    exact toLinearIndex_toNat_lt_area g.extents (O1 + q) hx0 hx hy0 hy
  have hwrite : (g.write (O1 + q) v).read (O1 + q) = some v := by
    simp [DGrid.read, DGrid.write, List.getElem?_set_self, hlt]
  refine ⟨rfl, hwrite, hwrite, ?_⟩
  simp [viewAccess, Idx.add_assoc]

/-- C2 witness: concrete instantiation on a dense `3 × 3` grid with view
origins `{1,1}` and `{0,1}` and local point `{1,0}`. -/
theorem C2_view_coordinate_transparency_witness :
    viewAccess (mkGrid ⟨3, 3⟩ (0 : Int)).read ⟨1, 1⟩ ⟨1, 0⟩ =
      (mkGrid ⟨3, 3⟩ (0 : Int)).read (⟨1, 1⟩ + ⟨1, 0⟩) ∧
    (viewWrite (mkGrid ⟨3, 3⟩ (0 : Int)) ⟨1, 1⟩ ⟨1, 0⟩ 7).read
      (⟨1, 1⟩ + ⟨1, 0⟩) = some 7 ∧
    viewAccess ((mkGrid ⟨3, 3⟩ (0 : Int)).write (⟨1, 1⟩ + ⟨1, 0⟩) 7).read
      ⟨1, 1⟩ ⟨1, 0⟩ = some 7 ∧
    viewAccess (viewAccess (mkGrid ⟨3, 3⟩ (0 : Int)).read ⟨1, 1⟩) ⟨0, 1⟩
      ⟨1, 0⟩ = (mkGrid ⟨3, 3⟩ (0 : Int)).read (⟨1, 1⟩ + ⟨0, 1⟩ + ⟨1, 0⟩) :=
  C2_view_coordinate_transparency (mkGrid ⟨3, 3⟩ (0 : Int)) ⟨1, 1⟩ ⟨0, 1⟩
    ⟨1, 0⟩ 7 (by decide) (by decide) (by decide) (by decide) (by decide)

theorem assignIter_snd {C : Type} :
    ∀ (b : List C) (a : List C) (i : Nat), (assignIter a i b).2 = b.length := by
  intro b
  induction b with
  | nil => intro a i; rfl
  | cons bv rest ih =>
    intro a i
    simp [assignIter, ih]

theorem compoundIter_snd {C : Type} (op : C → C → C) :
    ∀ (b : List C) (a : List C) (i : Nat),
      (compoundIter op a i b).2 = b.length := by
  intro b
  induction b with
  | nil => intro a i; rfl
  | cons bv rest ih =>
    intro a i
    simp [compoundIter, ih]

theorem assignIter_getElem_lt {C : Type} :
    ∀ (b : List C) (a : List C) (i k : Nat), k < i →
      ((assignIter a i b).1)[k]? = a[k]? := by
  intro b
  induction b with
  | nil => intro a i k _; rfl
  | cons bv rest ih =>
    intro a i k hk
    have h1 : ((assignIter (a.set i bv) (i + 1) rest).1)[k]? =
        (a.set i bv)[k]? := ih (a.set i bv) (i + 1) k (by omega)
    have h2 : (a.set i bv)[k]? = a[k]? :=
      List.getElem?_set_ne (by omega)
    simpa [assignIter, h2] using h1

theorem compoundIter_getElem_lt {C : Type} (op : C → C → C) :
    ∀ (b : List C) (a : List C) (i k : Nat), k < i →
      ((compoundIter op a i b).1)[k]? = a[k]? := by
  intro b
  induction b with
  | nil => intro a i k _; rfl
  | cons bv rest ih =>
    intro a i k hk
    simp only [compoundIter]
    cases hai : a[i]? with
    | none => simpa [hai] using ih a (i + 1) k (by omega)
    | some av =>
      have h1 : ((compoundIter op (a.set i (op av bv)) (i + 1) rest).1)[k]? =
          (a.set i (op av bv))[k]? :=
        ih (a.set i (op av bv)) (i + 1) k (by omega)
      have h2 : (a.set i (op av bv))[k]? = a[k]? :=
        List.getElem?_set_ne (by omega)
      simpa [hai, h2] using h1

theorem assignIter_getElem {C : Type} :
    ∀ (b : List C) (a : List C) (i j : Nat) (bv : C), b[j]? = some bv →
      i + j < a.length → ((assignIter a i b).1)[i + j]? = some bv := by
  intro b
  induction b with
  | nil => intro a i j bv hb; simp at hb
  | cons hd rest ih =>
    intro a i j bv hb hlen
    cases j with
    | zero =>
      simp only [List.getElem?_cons_zero, Option.some.injEq] at hb
      subst hb
      have h1 : ((assignIter (a.set i hd) (i + 1) rest).1)[i]? =
          (a.set i hd)[i]? :=
        assignIter_getElem_lt rest (a.set i hd) (i + 1) i (by omega)
      have h2 : (a.set i hd)[i]? = some hd :=
        List.getElem?_set_self (by omega)
      simpa [assignIter, h2] using h1
    | succ j' =>
      simp only [List.getElem?_cons_succ] at hb
      have h1 := ih (a.set i hd) (i + 1) j' bv hb
        (by simp only [List.length_set]; omega)
      have h2 : i + 1 + j' = i + (j' + 1) := by omega
      rw [h2] at h1
      simpa [assignIter] using h1

theorem compoundIter_getElem {C : Type} (op : C → C → C) :
    ∀ (b : List C) (a : List C) (i j : Nat) (av bv : C),
      a[i + j]? = some av → b[j]? = some bv →
      ((compoundIter op a i b).1)[i + j]? = some (op av bv) := by
  intro b
  induction b with
  | nil => intro a i j av bv _ hb; simp at hb
  | cons hd rest ih =>
    intro a i j av bv ha hb
    cases j with
    | zero =>
      simp only [List.getElem?_cons_zero, Option.some.injEq] at hb
      subst hb
      simp only [Nat.add_zero] at ha
      have hilen : i < a.length := by
        by_contra hcon
        rw [List.getElem?_eq_none (by omega : a.length ≤ i)] at ha
        exact Option.noConfusion ha
      have h1 : ((compoundIter op (a.set i (op av hd)) (i + 1) rest).1)[i]? =
          (a.set i (op av hd))[i]? :=
        compoundIter_getElem_lt op rest (a.set i (op av hd)) (i + 1) i
          (by omega)
      have h2 : (a.set i (op av hd))[i]? = some (op av hd) :=
        List.getElem?_set_self hilen
      simp only [compoundIter, ha, Nat.add_zero]
      simpa [h2] using h1
    | succ j' =>
      simp only [List.getElem?_cons_succ] at hb
      simp only [compoundIter]
      cases hai : a[i]? with
      | none =>
        have h1 := ih a (i + 1) j' av bv
          (by rw [show i + 1 + j' = i + (j' + 1) by omega]; exact ha) hb
        rw [show i + 1 + j' = i + (j' + 1) by omega] at h1
        simpa [hai] using h1
      | some av0 =>
        have ha2 : (a.set i (op av0 hd))[i + 1 + j']? = some av := by
          rw [List.getElem?_set_ne (by omega),
            show i + 1 + j' = i + (j' + 1) by omega]
          exact ha
        have h1 := ih (a.set i (op av0 hd)) (i + 1) j' av bv ha2 hb
        rw [show i + 1 + j' = i + (j' + 1) by omega] at h1
        simpa [hai] using h1

/-- C5 counterexample: the claim says `A op= B` updates exactly
`min(cells iterated by A, cells iterated by B)` cell pairs; with a 1-cell
left operand and a 2-cell right operand the code's loop performs 2 update
iterations (it only stops at the right operand's end), not `min 1 2 = 1`. -/
theorem C5_counterexample :
    ¬ ((gridAssignL [(0 : Int)] [1, 2]).2 =
        min ([(0 : Int)].length) ([(1 : Int), 2].length)) := by
  decide

/-- C5 (amended): whole-grid assignment and compound arithmetic perform
synchronized pairwise iteration, pairing cells by iteration-order position,
and terminate exactly at the end of the right-hand operand's iteration range:
`A op= B` performs exactly as many update iterations as `B` has cells,
regardless of `A`'s range, with no mismatch detection; position `i` of the
left operand receives the right operand's cell `i` (combined with the left
cell for compound operations). -/
theorem C5_rhs_range_iteration {C : Type} (op : C → C → C) (a b : List C)
    (i : Nat) (av bv : C) (ha : a[i]? = some av) (hb : b[i]? = some bv) :
    (gridAssignL a b).2 = b.length ∧
    (gridCompound op a b).2 = b.length ∧
    ((gridAssignL a b).1)[i]? = some bv ∧
    ((gridCompound op a b).1)[i]? = some (op av bv) := by
  have hilen : i < a.length := by
    by_contra hcon
    rw [List.getElem?_eq_none (by omega : a.length ≤ i)] at ha
    exact Option.noConfusion ha
  refine ⟨assignIter_snd b a 0, compoundIter_snd op b a 0, ?_, ?_⟩
  · have := assignIter_getElem b a 0 i bv hb (by omega)
    simpa [gridAssignL] using this
  · have := compoundIter_getElem op b a 0 i av bv (by simpa using ha) hb
    simpa [gridCompound] using this

/-- C5 witness: concrete instantiation with `a = [10, 20]`, `b = [3, 4, 5]`,
addition as the compound operation, at position 1. -/
theorem C5_rhs_range_iteration_witness :
    (gridAssignL [(10 : Int), 20] [3, 4, 5]).2 = 3 ∧
    (gridCompound (· + ·) [(10 : Int), 20] [3, 4, 5]).2 = 3 ∧
    ((gridAssignL [(10 : Int), 20] [3, 4, 5]).1)[1]? = some 4 ∧
    ((gridCompound (· + ·) [(10 : Int), 20] [3, 4, 5]).1)[1]? = some 24 :=
  C5_rhs_range_iteration (· + ·) [10, 20] [3, 4, 5] 1 20 4 rfl rfl

theorem getElem?_some_lt {C : Type} {l : List C} {i : Nat} {v : C}
    (h : l[i]? = some v) : i < l.length := by
  by_contra hcon
  rw [List.getElem?_eq_none (by omega : l.length ≤ i)] at h
  exact Option.noConfusion h

theorem neIter_eq_false {C : Type} [DecidableEq C] :
    ∀ (l : List C) (a : List C) (i : Nat),
      (∀ (j : Nat) (bv : C), l[j]? = some bv → a[i + j]? = some bv) →
      neIter a i l = false := by
  intro l
  induction l with
  | nil => intro a i _; rfl
  | cons bv rest ih =>
    intro a i h
    have h0 : a[i]? = some bv := by
      have := h 0 bv (by simp)
      simpa using this
    have h1 : ∀ (j : Nat) (w : C), rest[j]? = some w →
        a[i + 1 + j]? = some w := by
      intro j w hw
      have := h (j + 1) w (by simpa using hw)
      simpa [show i + (j + 1) = i + 1 + j by omega] using this
    simp [neIter, h0, ih a (i + 1) h1]

theorem neIter_take {C : Type} [DecidableEq C] :
    ∀ (l : List C) (a : List C) (i : Nat),
      neIter a i l = neIter (a.take (i + l.length)) i l := by
  intro l
  induction l with
  | nil => intro a i; rfl
  | cons bv rest ih =>
    intro a i
    have hlen : i + (bv :: rest).length = i + 1 + rest.length := by
      simp only [List.length_cons]
      omega
    have htk : (a.take (i + (bv :: rest).length))[i]? = a[i]? := by
      rw [List.getElem?_take,
        if_pos (by simp only [List.length_cons]; omega)]
    simp only [neIter, htk]
    rw [hlen, ih a (i + 1)]

/-- C7: after `D = S` on grids of equal extents (hence equal cell counts),
`D == S` returns true, equality being the negation of the short-circuiting
inequality loop. -/
theorem C7_assignment_round_trip {C : Type} [DecidableEq C] (a b : List C)
    (hlen : a.length = b.length) :
    gridEq ((gridAssignL a b).1) b = true := by
  simp only [gridEq, gridNe, Bool.not_eq_true']
  apply neIter_eq_false
  intro j bv hb
  have hj : j < b.length := getElem?_some_lt hb
  have := assignIter_getElem b a 0 j bv hb (by omega)
  simpa using this

/-- C7 witness: concrete instantiation with `a = [1, 2, 3, 4]` and
`b = [5, 6, 7, 8]` (equal cell counts). -/
theorem C7_assignment_round_trip_witness :
    gridEq ((gridAssignL [(1 : Int), 2, 3, 4] [5, 6, 7, 8]).1)
      [5, 6, 7, 8] = true :=
  C7_assignment_round_trip [1, 2, 3, 4] [5, 6, 7, 8] rfl

/-- C10: the inequality loop examines only the right operand's cell range —
`A != B` depends only on the first `B.length` cells of `A` in iteration
order — and consequently a dense `2 × 2` grid of ones compares equal
(`==` true) to a dense `1 × 1` grid of ones despite unequal extents and
more cells on the left. -/
theorem C10_equality_ignores_extra_lhs_cells :
    (∀ (a b : List Int), gridNe a b = gridNe (a.take b.length) b) ∧
    (mkGrid ⟨2, 2⟩ (1 : Int)).extents ≠ (mkGrid ⟨1, 1⟩ (1 : Int)).extents ∧
    (mkGrid ⟨1, 1⟩ (1 : Int)).data.length <
      (mkGrid ⟨2, 2⟩ (1 : Int)).data.length ∧
    gridEq (mkGrid ⟨2, 2⟩ (1 : Int)).data (mkGrid ⟨1, 1⟩ (1 : Int)).data =
      true := by
  refine ⟨fun a b => ?_, by decide, by decide, by decide⟩
  have := neIter_take b a 0
  simpa using this

/-- C8: `MappedGrid::resize(new_extents)` sets the logical extents to
`new_extents` and changes nothing else — the wrapped buffer (pointer and
every cell value) is untouched — and performs no capacity verification: it
succeeds even when the new extents' area exceeds the buffer's cell count, as
the concrete instance `resize {5,5}` on a 1-cell buffer shows. -/
theorem C8_mapped_resize_frame :
    (∀ (C : Type) (g : MappedGridM C) (e : Idx),
      (g.resize e).extents = e ∧ (g.resize e).data = g.data) ∧
    ((⟨⟨1, 1⟩, [7]⟩ : MappedGridM Int).resize ⟨5, 5⟩).extents = ⟨5, 5⟩ ∧
    ((⟨⟨1, 1⟩, [7]⟩ : MappedGridM Int).resize ⟨5, 5⟩).data = [7] ∧
    (((⟨⟨1, 1⟩, [7]⟩ : MappedGridM Int).resize ⟨5, 5⟩).extents.area.toNat >
      ((⟨⟨1, 1⟩, [7]⟩ : MappedGridM Int).data.length)) :=
  ⟨fun _ g e => ⟨rfl, rfl⟩, rfl, rfl, by decide⟩

theorem countP_set_flip {α : Type} (p : α → Bool) :
    ∀ (l : List α) (i : Nat) (t t' : α), l[i]? = some t →
      p t = false → p t' = true →
      (l.set i t').countP p = l.countP p + 1 := by
  intro l
  induction l with
  | nil => intro i t t' h _ _; simp at h
  | cons hd rest ih =>
    intro i t t' h hpt hpt'
    cases i with
    | zero =>
      simp only [List.getElem?_cons_zero, Option.some.injEq] at h
      subst h
      simp [List.countP_cons, hpt, hpt']
    | succ i' =>
      simp only [List.getElem?_cons_succ] at h
      simp only [List.set_cons_succ, List.countP_cons]
      rw [ih i' t t' h hpt hpt']
      omega

theorem countP_set_congr {α : Type} (p : α → Bool) :
    ∀ (l : List α) (i : Nat) (t t' : α), l[i]? = some t →
      p t = p t' →
      (l.set i t').countP p = l.countP p := by
  intro l
  induction l with
  | nil => intro i t t' h _; simp at h
  | cons hd rest ih =>
    intro i t t' h hp
    cases i with
    | zero =>
      simp only [List.getElem?_cons_zero, Option.some.injEq] at h
      subst h
      simp [List.countP_cons, hp]
    | succ i' =>
      simp only [List.getElem?_cons_succ] at h
      simp only [List.set_cons_succ, List.countP_cons]
      rw [ih i' t t' h hp]

theorem count_true_map {α : Type} (p : α → Bool) :
    ∀ (l : List α), (l.map p).count true = l.countP p := by
  intro l
  induction l with
  | nil => rfl
  | cons hd rest ih =>
    cases hph : p hd <;> simp [List.count_cons, List.countP_cons, hph, ih]

/-- C9: in every state of a `FixedTiledGrid`, `active()` equals the number
of tile-indices at which `mask()` is true: the mask grid carries one flag
per tile in the same linear order as the counting loop of `active()`, and
both flags derive from the non-nullness of the tile's data pointer. -/
theorem C9_active_eq_mask_true_count {C : Type} (g : FixedTiledGridM C) :
    g.active = (g.maskList).count true := by
  have h := count_true_map (fun t : TileM C => t.data.isSome) g.tiles
  simpa [FixedTiledGridM.active, FixedTiledGridM.maskList] using h.symm

/-- C4: in the concrete scenario (grid extents `{20,20}`, tile extents
`{5,5}`, default `5`, write `6` at `{5,5}` and `9` at `{18,19}`), the mask
is true exactly at tile-indices `{1,1}` and `{3,3}`, `active()` is 2, and
the grid reads `6` at `{5,5}`, `9` at `{18,19}` and `5` at `{0,0}`. -/
theorem C4_concrete_tiled_scenario :
    FixedTiledGridM.maskAt 4 4 c4grid ⟨1, 1⟩ = some true ∧
    FixedTiledGridM.maskAt 4 4 c4grid ⟨3, 3⟩ = some true ∧
    (c4TileIndices.all (fun tp =>
      FixedTiledGridM.maskAt 4 4 c4grid tp ==
        some (decide (tp = ⟨1, 1⟩) || decide (tp = ⟨3, 3⟩)))) = true ∧
    c4grid.active = 2 ∧
    FixedTiledGridM.read 20 20 5 5 c4grid ⟨5, 5⟩ = some 6 ∧
    FixedTiledGridM.read 20 20 5 5 c4grid ⟨18, 19⟩ = some 9 ∧
    FixedTiledGridM.read 20 20 5 5 c4grid ⟨0, 0⟩ = some 5 := by
  decide

theorem tiledRead_of_empty {C : Type} (H W TH TW : Int)
    (g : FixedTiledGridM C) (t : TileM C) (pt : Idx)
    (htile : g.tiles[(toLinearIndex ⟨H / TH, W / TW⟩
      (tileOf TH TW pt)).toNat]? = some t)
    (hempty : t.data = none) :
    FixedTiledGridM.read H W TH TW g pt = some g.defaultValue := by
  simp [FixedTiledGridM.read, htile, hempty]

theorem tiledRead_of_some {C : Type} (H W TH TW : Int)
    (g : FixedTiledGridM C) (td : List C) (org pt : Idx)
    (htile : g.tiles[(toLinearIndex ⟨H / TH, W / TW⟩
      (tileOf TH TW pt)).toNat]? = some ⟨some td, org⟩) :
    FixedTiledGridM.read H W TH TW g pt =
      td[(toLinearIndex ⟨TH, TW⟩ (pt - org)).toNat]? := by
  simp [FixedTiledGridM.read, htile]

theorem tiledTouch_of_empty {C : Type} (H W TH TW : Int)
    (g : FixedTiledGridM C) (t : TileM C) (pt : Idx)
    (htile : g.tiles[(toLinearIndex ⟨H / TH, W / TW⟩
      (tileOf TH TW pt)).toNat]? = some t)
    (hempty : t.data = none) :
    FixedTiledGridM.touch H W TH TW g pt =
      ⟨g.defaultValue,
       g.tiles.set (toLinearIndex ⟨H / TH, W / TW⟩ (tileOf TH TW pt)).toNat
         ⟨some (List.replicate (TH * TW).toNat g.defaultValue),
          ⟨(tileOf TH TW pt).x * TH, (tileOf TH TW pt).y * TW⟩⟩⟩ := by
  simp [FixedTiledGridM.touch, htile, materializeTile, hempty]

theorem tiledWrite_of_empty {C : Type} (H W TH TW : Int)
    (g : FixedTiledGridM C) (t : TileM C) (pt : Idx) (v : C)
    (htile : g.tiles[(toLinearIndex ⟨H / TH, W / TW⟩
      (tileOf TH TW pt)).toNat]? = some t)
    (hempty : t.data = none) :
    FixedTiledGridM.write H W TH TW g pt v =
      ⟨g.defaultValue,
       g.tiles.set (toLinearIndex ⟨H / TH, W / TW⟩ (tileOf TH TW pt)).toNat
         ⟨some ((List.replicate (TH * TW).toNat g.defaultValue).set
            (toLinearIndex ⟨TH, TW⟩
              (pt - ⟨(tileOf TH TW pt).x * TH,
                     (tileOf TH TW pt).y * TW⟩)).toNat v),
          ⟨(tileOf TH TW pt).x * TH, (tileOf TH TW pt).y * TW⟩⟩⟩ := by
  simp [FixedTiledGridM.write, htile, materializeTile, hempty]

theorem tiledWrite_of_some {C : Type} (H W TH TW : Int)
    (g : FixedTiledGridM C) (td : List C) (org pt : Idx) (v : C)
    (htile : g.tiles[(toLinearIndex ⟨H / TH, W / TW⟩
      (tileOf TH TW pt)).toNat]? = some ⟨some td, org⟩) :
    FixedTiledGridM.write H W TH TW g pt v =
      ⟨g.defaultValue,
       g.tiles.set (toLinearIndex ⟨H / TH, W / TW⟩ (tileOf TH TW pt)).toNat
         ⟨some (td.set (toLinearIndex ⟨TH, TW⟩ (pt - org)).toNat v),
          org⟩⟩ := by
  simp [FixedTiledGridM.write, htile, materializeTile]

/-- C1: for a tiled grid whose tile `T` (the tile containing `pt`, looked up
at the code's tile linear index) is unmaterialized: const access anywhere in
`T` returns the default value (and, the const entry point being a pure
function of the state, allocates nothing and leaves the tile set unchanged);
the empty-to-materialized transition is triggered by the first mutable
access — a bare mutable access (`touch`) or a write both raise `active()` by
exactly 1 — after which unwritten cells of `T` still read the default value
and the written cell reads the written value; and the transition happens
only once: a second mutable access into `T` leaves `active()` at its
incremented value. -/
theorem C1_tiled_lazy_materialization {C : Type} (H W TH TW : Int)
    (g : FixedTiledGridM C) (t : TileM C) (pt q : Idx) (v w : C)
    (hTH : 0 < TH) (hTW : 0 < TW)
    (hpx0 : 0 ≤ pt.x) (hpy0 : 0 ≤ pt.y) (hqx0 : 0 ≤ q.x) (hqy0 : 0 ≤ q.y)
    (htile : g.tiles[(toLinearIndex ⟨H / TH, W / TW⟩
      (tileOf TH TW pt)).toNat]? = some t)
    (hempty : t.data = none)
    (hsame : tileOf TH TW q = tileOf TH TW pt)
    (hne : q ≠ pt) :
    FixedTiledGridM.read H W TH TW g pt = some g.defaultValue ∧
    FixedTiledGridM.read H W TH TW g q = some g.defaultValue ∧
    (FixedTiledGridM.touch H W TH TW g pt).active = g.active + 1 ∧
    FixedTiledGridM.read H W TH TW (FixedTiledGridM.touch H W TH TW g pt) pt
      = some g.defaultValue ∧
    FixedTiledGridM.read H W TH TW (FixedTiledGridM.touch H W TH TW g pt) q
      = some g.defaultValue ∧
    (FixedTiledGridM.write H W TH TW g pt v).active = g.active + 1 ∧
    FixedTiledGridM.read H W TH TW (FixedTiledGridM.write H W TH TW g pt v)
      pt = some v ∧
    FixedTiledGridM.read H W TH TW (FixedTiledGridM.write H W TH TW g pt v)
      q = some g.defaultValue ∧
    (FixedTiledGridM.write H W TH TW
      (FixedTiledGridM.write H W TH TW g pt v) q w).active
      = g.active + 1 := by
  have hi : (toLinearIndex ⟨H / TH, W / TW⟩ (tileOf TH TW pt)).toNat <
      g.tiles.length := getElem?_some_lt htile
  have htileq : g.tiles[(toLinearIndex ⟨H / TH, W / TW⟩
      (tileOf TH TW q)).toNat]? = some t := by
    rw [hsame]
    exact htile
  have hsx : q.x / TH = pt.x / TH := congrArg Idx.x hsame
  have hsy : q.y / TW = pt.y / TW := congrArg Idx.y hsame
  -- local coordinates of pt and q inside the tile anchored at the
  -- materialization origin
  have hlpx : pt.x - (tileOf TH TW pt).x * TH = pt.x % TH := by
    show pt.x - pt.x / TH * TH = pt.x % TH
    rw [Int.emod_def]
    ring
  have hlpy : pt.y - (tileOf TH TW pt).y * TW = pt.y % TW := by
    show pt.y - pt.y / TW * TW = pt.y % TW
    rw [Int.emod_def]
    ring
  have hlqx : q.x - (tileOf TH TW pt).x * TH = q.x % TH := by
    show q.x - pt.x / TH * TH = q.x % TH
    rw [← hsx, Int.emod_def]
    ring
  have hlqy : q.y - (tileOf TH TW pt).y * TW = q.y % TW := by
    show q.y - pt.y / TW * TW = q.y % TW
    rw [← hsy, Int.emod_def]
    ring
  have hpx1 : 0 ≤ pt.x % TH := Int.emod_nonneg pt.x (by omega)
  have hpx2 : pt.x % TH < TH := Int.emod_lt_of_pos pt.x hTH
  have hpy1 : 0 ≤ pt.y % TW := Int.emod_nonneg pt.y (by omega)
  have hpy2 : pt.y % TW < TW := Int.emod_lt_of_pos pt.y hTW
  have hqx1 : 0 ≤ q.x % TH := Int.emod_nonneg q.x (by omega)
  have hqx2 : q.x % TH < TH := Int.emod_lt_of_pos q.x hTH
  have hqy1 : 0 ≤ q.y % TW := Int.emod_nonneg q.y (by omega)
  have hqy2 : q.y % TW < TW := Int.emod_lt_of_pos q.y hTW
  have hlp : pt - (⟨(tileOf TH TW pt).x * TH, (tileOf TH TW pt).y * TW⟩ :
      Idx) = ⟨pt.x % TH, pt.y % TW⟩ := by
    rw [Idx.sub_def]
    exact congrArg₂ Idx.mk hlpx hlpy
  have hlq : q - (⟨(tileOf TH TW pt).x * TH, (tileOf TH TW pt).y * TW⟩ :
      Idx) = ⟨q.x % TH, q.y % TW⟩ := by
    rw [Idx.sub_def]
    exact congrArg₂ Idx.mk hlqx hlqy
  have hlocne : (⟨q.x % TH, q.y % TW⟩ : Idx) ≠ ⟨pt.x % TH, pt.y % TW⟩ := by
    intro hcon
    apply hne
    have h1 : q.x % TH = pt.x % TH := congrArg Idx.x hcon
    have h2 : q.y % TW = pt.y % TW := congrArg Idx.y hcon
    have h3 : q.x = pt.x := by omega
    have h4 : q.y = pt.y := by omega
    cases q
    cases pt
    simp_all
  have hlpi : (toLinearIndex ⟨TH, TW⟩ ⟨pt.x % TH, pt.y % TW⟩).toNat <
      (TH * TW).toNat := by
    have := toLinearIndex_toNat_lt_area ⟨TH, TW⟩ ⟨pt.x % TH, pt.y % TW⟩
      hpx1 hpx2 hpy1 hpy2
    simpa [Idx.area] using this
  have hlqi : (toLinearIndex ⟨TH, TW⟩ ⟨q.x % TH, q.y % TW⟩).toNat <
      (TH * TW).toNat := by
    have := toLinearIndex_toNat_lt_area ⟨TH, TW⟩ ⟨q.x % TH, q.y % TW⟩
      hqx1 hqx2 hqy1 hqy2
    simpa [Idx.area] using this
  have hij : (toLinearIndex ⟨TH, TW⟩ ⟨q.x % TH, q.y % TW⟩).toNat ≠
      (toLinearIndex ⟨TH, TW⟩ ⟨pt.x % TH, pt.y % TW⟩).toNat :=
    toLinearIndex_toNat_inj ⟨TH, TW⟩ ⟨q.x % TH, q.y % TW⟩
      ⟨pt.x % TH, pt.y % TW⟩ hqx1 hqx2 hqy1 hqy2 hpx1 hpx2 hpy1 hpy2 hlocne
  have hisfalse : (fun s : TileM C => s.data.isSome) t = false := by
    simp [hempty]
  have htouch := tiledTouch_of_empty H W TH TW g t pt htile hempty
  have hwrite := tiledWrite_of_empty H W TH TW g t pt v htile hempty
  rw [hlp] at hwrite
  refine ⟨tiledRead_of_empty H W TH TW g t pt htile hempty,
    tiledRead_of_empty H W TH TW g t q htileq hempty, ?_, ?_, ?_, ?_, ?_,
    ?_, ?_⟩
  · rw [htouch, FixedTiledGridM.active, FixedTiledGridM.active]
    exact countP_set_flip _ g.tiles _ t _ htile hisfalse rfl
  · rw [htouch]
    rw [tiledRead_of_some H W TH TW _ _ _ pt
      (by exact List.getElem?_set_self hi)]
    rw [hlp, List.getElem?_replicate, if_pos hlpi]
  · rw [htouch]
    rw [tiledRead_of_some H W TH TW _ _ _ q
      (by rw [hsame]; exact List.getElem?_set_self hi)]
    rw [hlq, List.getElem?_replicate, if_pos hlqi]
  · rw [hwrite, FixedTiledGridM.active, FixedTiledGridM.active]
    exact countP_set_flip _ g.tiles _ t _ htile hisfalse rfl
  · rw [hwrite]
    rw [tiledRead_of_some H W TH TW _ _ _ pt
      (by exact List.getElem?_set_self hi)]
    rw [hlp, List.getElem?_set_self (by simpa using hlpi)]
  · rw [hwrite]
    rw [tiledRead_of_some H W TH TW _ _ _ q
      (by rw [hsame]; exact List.getElem?_set_self hi)]
    rw [hlq, List.getElem?_set_ne hij.symm, List.getElem?_replicate,
      if_pos hlqi]
  · rw [hwrite]
    rw [tiledWrite_of_some H W TH TW _ _ _ q w
      (by rw [hsame]; exact List.getElem?_set_self hi)]
    show ((g.tiles.set _ _).set _ _).countP _ = g.tiles.countP _ + 1
    rw [hsame]
    rw [countP_set_congr _ _ _ _ _ (List.getElem?_set_self hi) (by simp)]
    exact countP_set_flip _ g.tiles _ t _ htile hisfalse rfl

/-- C1 witness: the `20 × 20` tiled grid with `5 × 5` tiles and default `5`,
`pt = {5,5}`, `q = {6,6}` (same tile, distinct cell), writing `6` then `7`. -/
theorem C1_tiled_lazy_materialization_witness :
    FixedTiledGridM.read 20 20 5 5 (mkTiledGrid 20 20 5 5 (5 : Int)) ⟨5, 5⟩
      = some 5 ∧
    FixedTiledGridM.read 20 20 5 5 (mkTiledGrid 20 20 5 5 (5 : Int)) ⟨6, 6⟩
      = some 5 ∧
    (FixedTiledGridM.touch 20 20 5 5 (mkTiledGrid 20 20 5 5 (5 : Int))
      ⟨5, 5⟩).active = (mkTiledGrid 20 20 5 5 (5 : Int)).active + 1 ∧
    FixedTiledGridM.read 20 20 5 5 (FixedTiledGridM.touch 20 20 5 5
      (mkTiledGrid 20 20 5 5 (5 : Int)) ⟨5, 5⟩) ⟨5, 5⟩ = some 5 ∧
    FixedTiledGridM.read 20 20 5 5 (FixedTiledGridM.touch 20 20 5 5
      (mkTiledGrid 20 20 5 5 (5 : Int)) ⟨5, 5⟩) ⟨6, 6⟩ = some 5 ∧
    (FixedTiledGridM.write 20 20 5 5 (mkTiledGrid 20 20 5 5 (5 : Int))
      ⟨5, 5⟩ 6).active = (mkTiledGrid 20 20 5 5 (5 : Int)).active + 1 ∧
    FixedTiledGridM.read 20 20 5 5 (FixedTiledGridM.write 20 20 5 5
      (mkTiledGrid 20 20 5 5 (5 : Int)) ⟨5, 5⟩ 6) ⟨5, 5⟩ = some 6 ∧
    FixedTiledGridM.read 20 20 5 5 (FixedTiledGridM.write 20 20 5 5
      (mkTiledGrid 20 20 5 5 (5 : Int)) ⟨5, 5⟩ 6) ⟨6, 6⟩ = some 5 ∧
    (FixedTiledGridM.write 20 20 5 5 (FixedTiledGridM.write 20 20 5 5
      (mkTiledGrid 20 20 5 5 (5 : Int)) ⟨5, 5⟩ 6) ⟨6, 6⟩ 7).active
      = (mkTiledGrid 20 20 5 5 (5 : Int)).active + 1 :=
  C1_tiled_lazy_materialization 20 20 5 5 (mkTiledGrid 20 20 5 5 (5 : Int))
    emptyTile ⟨5, 5⟩ ⟨6, 6⟩ 6 7 (by decide) (by decide) (by decide)
    (by decide) (by decide) (by decide) (by decide) (by decide) (by decide)
    (by decide)

end Twod
